import Mathlib

/-!
Verification of the triage decision engine of this repository.

The embedding below translates the TypeScript sources into Lean:
  - JavaScript strings become Lean `String`; `toLowerCase`/`trim` become
    `jsToLower`/`jsTrim`; `includes` (substring) and word-boundary
    regex tests are given explicit executable definitions.
  - The `ExtractedInfo` record (a sparse map of field name to value) becomes
    an association list `List (String × String)`; the JavaScript truthiness
    test `!value` on a string field becomes the empty-string test.  The one
    boolean field (`isDocumentQuestion`) is stored as the string "true",
    which preserves its truthiness and is never compared by any rule in the
    claims below.
  - Fallible external collaborators (database fetches, the completion
    service) are passed in as `Except Err _` values; `try/catch` blocks in
    the source become `match` on those values.
  - Floating point confidences become exact rationals (the source only
    forms them as `1 - d / maxLen` with small integers, where every value
    and comparison is exact in binary64 up to the threshold comparison,
    which we keep symbolic as `7/10`).
  - `Date` timestamps become integers (milliseconds); the availability
    window check compares those integers exactly as the source compares
    `Date` values.
-/

namespace Triage

/-- JavaScript truthiness of a string value: the empty string is falsy. -/
def strTruthy (s : String) : Bool := s ≠ ""

/-- JavaScript toLowerCase, as an executable map over the character
list (the core String.toLower is not kernel-reducible). -/
def jsToLower (s : String) : String := String.mk (s.data.map Char.toLower)

/-- Drop leading whitespace of a character list. -/
def dropWhiteLeft : List Char → List Char
  | [] => []
  | c :: cs => if c.isWhitespace then dropWhiteLeft cs else c :: cs

/-- JavaScript `s.trim()`. -/
def jsTrim (s : String) : String :=
  String.mk ((dropWhiteLeft (dropWhiteLeft s.data.reverse).reverse))

/-- Substring test on character lists: does `hay` contain `pat` contiguously,
with the JavaScript convention that the empty pattern is always contained. -/
def charsHave : List Char → List Char → Bool
  | _, [] => true
  | [], _ :: _ => false
  | c :: cs, pat => (pat.isPrefixOf (c :: cs)) || charsHave cs pat

/-- JavaScript `hay.includes(pat)` on strings. -/
def jsIncludes (hay pat : String) : Bool := charsHave hay.data pat.data

/-- Word characters of the JavaScript regex class `\w`. -/
def isWordChar (c : Char) : Bool := c.isAlpha || c.isDigit || c == '_'

/-- Maximal runs of word characters of a character list.  A regex
`\bw\b` matches a string exactly when `w` is one of these runs. -/
def wordRunsAux : List Char → List Char → List String
  | [], acc => if acc.isEmpty then [] else [String.mk acc.reverse]
  | c :: cs, acc =>
    if isWordChar c then wordRunsAux cs (c :: acc)
    else if acc.isEmpty then wordRunsAux cs []
    else String.mk acc.reverse :: wordRunsAux cs []

/-- The whole words of a string. -/
def wordsOf (s : String) : List String := wordRunsAux s.data []

/-! ## Data model (src/server/src/types.ts) -/

/-- Operator of a triage condition (`'equals' | 'contains'` in the source). -/
inductive CondOp where
  | equals
  | contains
deriving DecidableEq, Repr

/-- TriageCondition from src/server/src/types.ts. -/
structure TriageCondition where
  field : String
  op : CondOp
  value : String
deriving DecidableEq, Repr

/-- TriageRule from src/server/src/types.ts. -/
structure TriageRule where
  id : String
  name : String
  conditions : List TriageCondition
  assignee : String
  priority : Int
  enabled : Bool
deriving DecidableEq, Repr

/-- ExtractedInfo: a sparse mapping of field name to value, embedded as an
association list.  Boolean values are stored as the string "true". -/
abbrev ExtractedInfo := List (String × String)

/-- Field lookup, `info[field]` in the source. -/
def getField (info : ExtractedInfo) (f : String) : Option String :=
  (List.find? (fun kv => kv.1 == f) info).map (fun kv => kv.2)

/-- Truthiness of `info[field]`: present and non-empty. -/
def infoHas (info : ExtractedInfo) (f : String) : Bool :=
  match getField info f with
  | some v => strTruthy v
  | none => false

/-- JavaScript object field assignment `info[k] = v` on the association-list
embedding: replace an existing key, otherwise append. -/
def setField (info : ExtractedInfo) (k v : String) : ExtractedInfo :=
  if (List.find? (fun kv => kv.1 == k) info).isSome then
    List.map (fun kv => if kv.1 == k then (k, v) else kv) info
  else info ++ [(k, v)]

/-! ## Rule Matcher (src/unnamed/part_004, triageEngine) -/

/-- evaluateCondition from the rule matcher: the field value must be truthy,
then both sides are lower-cased and trimmed and compared with the
operator. -/
def evaluateCondition (condition : TriageCondition) (info : ExtractedInfo) : Bool :=
  match getField info condition.field with
  | none => false
  | some value =>
    if value = "" then false
    else
      let normalizedValue := jsTrim (jsToLower value)
      let normalizedTarget := jsTrim (jsToLower condition.value)
      match condition.op with
      | .equals => normalizedValue == normalizedTarget
      | .contains => jsIncludes normalizedValue normalizedTarget

/-- evaluateRule: disabled rules never match; otherwise every condition must
match (`Array.prototype.every`, which is true on an empty list). -/
def evaluateRule (rule : TriageRule) (info : ExtractedInfo) : Bool :=
  if !rule.enabled then false
  else rule.conditions.all (fun condition => evaluateCondition condition info)

/-- findMatchingRule: first rule (in the stored ascending-priority order)
that fully matches.  The database fetch is factored out: the caller passes
the already-loaded rule list. -/
def findMatchingRule (rules : List TriageRule) (info : ExtractedInfo) : Option TriageRule :=
  List.find? (fun rule => evaluateRule rule info) rules

/-- First-occurrence deduplication, the order `Array.from(new Set(xs))`
produces in JavaScript. -/
def dedupFO (l : List String) : List String := go l []
where
  go : List String → List String → List String
  | [], _ => []
  | x :: xs, seen => if seen.contains x then go xs seen else x :: go xs (x :: seen)

/-- getRequiredFields: the set of all fields referenced by any rule, in
first-occurrence order. -/
def getRequiredFields (rules : List TriageRule) : List String :=
  dedupFO (rules.flatMap (fun rule => rule.conditions.map (fun c => c.field)))

/-- getMissingFields from the rule matcher, transcribed from the source
(the source also computes a `providedFields` list that it never uses;
that dead computation is omitted). -/
def getMissingFields (rules : List TriageRule) (info : ExtractedInfo) : List String :=
  let requiredFields := getRequiredFields rules
  match findMatchingRule rules info with
  | some _ => []
  | none =>
    let missing := rules.foldl (fun acc rule =>
      let ruleFields := rule.conditions.map (fun c => c.field)
      let missingForRule := ruleFields.filter (fun f => !(infoHas info f))
      if missingForRule.length > 0 && missingForRule.length < ruleFields.length
      then acc ++ missingForRule
      else acc) []
    if missing.length = 0 then
      (requiredFields.filter (fun f => !(infoHas info f))).take 1
    else
      (dedupFO missing).take 1

/-! ## Errors of external collaborators

The spec taxonomy names a typed `StageFailure` carrying a stage name.  No
such type exists in the source; to compare the spec with the code we give
the error type both shapes: `raw` models an arbitrary JavaScript `Error`
propagated unchanged, `stageFailure` models the typed failure the spec
describes (stage name, message). -/
inductive Err where
  | raw : String → Err
  | stageFailure : String → String → Err
deriving DecidableEq, Repr

/-! ## Term Normalizer (src/unnamed/part_009, fuzzyMatcher) -/

/-- LegalTerm from the synonym table. -/
structure LegalTerm where
  term : String
  category : String
  synonyms : List String
deriving DecidableEq, Repr

/-- FuzzyMatchResult; the float confidence is embedded as an exact
rational. -/
structure FuzzyMatchResult where
  normalizedValue : String
  confidence : ℚ
  matchedTerm : Option String
deriving DecidableEq, Repr

/-- One row update of the Wagner–Fischer dynamic program for the
Levenshtein distance: given the row for the previous character of the
first string, produce the tail of the next row.  `pdiag` is the entry
above-left, `prest.headD 0` the entry above, `left` the entry just
written. -/
def levRowAux (c : Char) : List Char → List Nat → Nat → List Nat
  | [], _, _ => []
  | b :: bs, pdiag :: prest, left =>
    let up := prest.headD 0
    let cur := if c = b then pdiag else 1 + min pdiag (min up left)
    cur :: levRowAux c bs prest cur
  | _ :: _, [], _ => []

/-- Levenshtein edit distance of two character lists (the
fastest-levenshtein `distance` import of the source), computed by the
standard row dynamic program. -/
def lev (a b : List Char) : Nat :=
  let finalRow := a.foldl (fun row c =>
    let first := row.headD 0 + 1
    first :: levRowAux c b row first) (List.range (b.length + 1))
  finalRow.getLastD 0

/-- calculateSimilarity: `1 - distance / maxLength`, and 1 when both
strings are empty.  The subtraction and division are fused into one exact
rational `(maxLength - distance) / maxLength`, the same number (Lean kernel
reduction requires `mkRat` here; the two float operations of the source are
exact for these magnitudes). -/
def calculateSimilarity (str1 str2 : String) : ℚ :=
  let maxLength := max str1.length str2.length
  if maxLength = 0 then 1
  else mkRat ((maxLength : Int) - (lev str1.data str2.data : Int)) maxLength

/-- Inner loop of fuzzyMatch over one term entry.  An `inl` result models the
early `return` of an exact synonym match; `inr` carries the running best
match. -/
def synLoop (normalizedInput termName : String) :
    List String → FuzzyMatchResult → Sum FuzzyMatchResult FuzzyMatchResult
  | [], best => .inr best
  | synonym :: rest, best =>
    let synonymLower := jsToLower synonym
    if normalizedInput = synonymLower then .inl ⟨termName, 1, some termName⟩
    else
      let synonymSimilarity := calculateSimilarity normalizedInput synonymLower
      let best1 :=
        if synonymSimilarity > best.confidence
        then ⟨termName, synonymSimilarity, some termName⟩
        else best
      synLoop normalizedInput termName rest best1

/-- Outer loop of fuzzyMatch over the term list.  An `inl` result models the
early `return` of an exact match (confidence 1); `inr` carries the best
match seen when the loop runs to completion. -/
def termLoop (normalizedInput : String) :
    List LegalTerm → FuzzyMatchResult → Sum FuzzyMatchResult FuzzyMatchResult
  | [], best => .inr best
  | t :: rest, best =>
    if normalizedInput = (jsToLower t.term) then .inl ⟨t.term, 1, some t.term⟩
    else
      let termSimilarity := calculateSimilarity normalizedInput (jsToLower t.term)
      let best1 :=
        if termSimilarity > best.confidence
        then ⟨t.term, termSimilarity, some t.term⟩
        else best
      match synLoop normalizedInput t.term t.synonyms best1 with
      | .inl early => .inl early
      | .inr best2 => termLoop normalizedInput rest best2

/-- fuzzyMatch.  The `prisma.legalTerm.findMany` fetch is the argument
`tableResult`; the `catch` block of the source turns any fetch failure into
the raw input with confidence 0. -/
def fuzzyMatch (tableResult : Except Err (List LegalTerm)) (input : String)
    (threshold : ℚ) : FuzzyMatchResult :=
  let normalizedInput := jsTrim (jsToLower input)
  match tableResult with
  | .error _ => ⟨input, 0, none⟩
  | .ok legalTerms =>
    match termLoop normalizedInput legalTerms ⟨input, 0, none⟩ with
    | .inl early => early
    | .inr bestMatch =>
      if bestMatch.confidence ≥ threshold then bestMatch
      else ⟨input, 0, none⟩

/-- Field-to-category map of fuzzyMatchExtractedInfo. -/
def fieldCategory (field : String) : Option String :=
  if field = "requestType" then some "request_type"
  else if field = "location" then some "location"
  else if field = "department" then some "department"
  else none

/-- fuzzyMatchExtractedInfo: normalize each recognized truthy field with
fuzzyMatch at the default threshold 0.7, keeping raw values below the
threshold.  The auxiliary observability map of matches is dropped here (it
is returned by the source only for logging and never read by decision
logic). -/
def fuzzyMatchExtractedInfo (tables : String → Except Err (List LegalTerm))
    (extractedInfo : ExtractedInfo) : ExtractedInfo :=
  extractedInfo.map (fun kv =>
    match fieldCategory kv.1 with
    | some category =>
      if strTruthy kv.2 then
        let result := fuzzyMatch (tables category) kv.2 (mkRat 7 10)
        if result.confidence ≥ mkRat 7 10 then (kv.1, result.normalizedValue)
        else kv
      else kv
    | none => kv)

/-! ## Specialist Scorer and dynamic router (src/server/src/types.ts,
dynamicRouter segment) -/

/-- One entry of `calendarAvailability.upcomingAvailability`: a date
(milliseconds timestamp) and the number of slots that day. -/
structure AvailDay where
  date : Int
  slots : Nat
deriving DecidableEq, Repr

/-- LawyerWithSpecialties.  `calendarAvailability` is `none` when the
lawyer has no calendar data (or no `upcomingAvailability` array). -/
structure Lawyer where
  id : String
  email : String
  name : String
  specialties : List String
  locations : List String
  departments : List String
  tags : Option (List String)
  calendarAvailability : Option (List AvailDay)
deriving DecidableEq, Repr

/-- EmployeeWithContext. -/
structure Employee where
  id : String
  email : String
  firstName : String
  lastName : String
  department : String
  location : String
  role : Option String
  tags : Option (List String)
deriving DecidableEq, Repr

/-- Milliseconds in seven days, the window of the availability checks. -/
def sevenDaysMs : Int := 7 * 24 * 60 * 60 * 1000

/-- hasUpcomingAvailability: at least one day inside the next-7-days window
with a non-empty slot list. -/
def hasUpcomingAvailability (now : Int) (lawyer : Lawyer) : Bool :=
  match lawyer.calendarAvailability with
  | none => false
  | some days =>
    days.any (fun day =>
      decide (now ≤ day.date) && decide (day.date ≤ now + sevenDaysMs) && decide (0 < day.slots))

/-- getAvailableSlotCount: total slots over the days inside the window. -/
def getAvailableSlotCount (now : Int) (lawyer : Lawyer) : Nat :=
  match lawyer.calendarAvailability with
  | none => 0
  | some days =>
    days.foldl (fun totalSlots day =>
      if decide (now ≤ day.date) && decide (day.date ≤ now + sevenDaysMs)
      then totalSlots + day.slots
      else totalSlots) 0

/-- Availability block of scoreLawyerMatch: +25 and up to +15 extra for
slots when available, −10 otherwise. -/
def availabilityScore (now : Int) (lawyer : Lawyer) : Int :=
  if hasUpcomingAvailability now lawyer
  then 25 + min ((getAvailableSlotCount now lawyer : Int) * 2) 15
  else -10

/-- Specialty block of scoreLawyerMatch: +50 on a bidirectional
case-insensitive substring match between requestType and a specialty. -/
def specialtyScore (lawyer : Lawyer) (extractedInfo : ExtractedInfo) : Int :=
  match getField extractedInfo "requestType" with
  | some requestType =>
    if strTruthy requestType then
      let requestTypeLower := jsToLower requestType
      if lawyer.specialties.any (fun specialty =>
          jsIncludes (jsToLower specialty) requestTypeLower ||
          jsIncludes requestTypeLower (jsToLower specialty))
      then 50 else 0
    else 0
  | none => 0

/-- Location block of scoreLawyerMatch: +30 on an exact case-insensitive
match of the request location. -/
def locationScore (lawyer : Lawyer) (extractedInfo : ExtractedInfo) : Int :=
  match getField extractedInfo "location" with
  | some location =>
    if strTruthy location then
      if lawyer.locations.any (fun loc => jsToLower loc == jsToLower location)
      then 30 else 0
    else 0
  | none => 0

/-- Department block of scoreLawyerMatch: +20 on an exact case-insensitive
match of the request department. -/
def departmentScore (lawyer : Lawyer) (extractedInfo : ExtractedInfo) : Int :=
  match getField extractedInfo "department" with
  | some department =>
    if strTruthy department then
      if lawyer.departments.any (fun dept => jsToLower dept == jsToLower department)
      then 20 else 0
    else 0
  | none => 0

/-- Tag block of scoreLawyerMatch as the source computes it: +40 when both
sides carry a lower-cased "vip" tag, plus +10 for every employee tag found
among the lawyer tags — including the vip tag itself. -/
def tagScore (lawyer : Lawyer) (employee : Option Employee) : Int :=
  match employee with
  | none => 0
  | some emp =>
    match emp.tags, lawyer.tags with
    | some empTags, some lwTags =>
      let employeeTags := empTags.map jsToLower
      let lawyerTags := lwTags.map jsToLower
      let vipBonus : Int :=
        if employeeTags.contains "vip" && lawyerTags.contains "vip" then 40 else 0
      let commonTags := employeeTags.filter (fun tag => lawyerTags.contains tag)
      vipBonus + (commonTags.length : Int) * 10
    | _, _ => 0

/-- Tag block as the spec words it: +40 for the vip pair, and +10 for each
OTHER tag in the case-insensitive SET intersection — each distinct shared
tag counts once (first-occurrence deduplication of the lower-cased
employee tags realizes the set), and the already-counted vip pair is
excluded. -/
def tagScoreSpec (lawyer : Lawyer) (employee : Option Employee) : Int :=
  match employee with
  | none => 0
  | some emp =>
    match emp.tags, lawyer.tags with
    | some empTags, some lwTags =>
      let employeeTags := empTags.map jsToLower
      let lawyerTags := lwTags.map jsToLower
      let vipBonus : Int :=
        if employeeTags.contains "vip" && lawyerTags.contains "vip" then 40 else 0
      let sharedTags :=
        (dedupFO employeeTags).filter (fun tag => lawyerTags.contains tag && tag ≠ "vip")
      vipBonus + (sharedTags.length : Int) * 10
    | _, _ => 0

/-- Employee-location fallback block: +15 when the lawyer covers the
employee profile location. -/
def empLocationScore (lawyer : Lawyer) (employee : Option Employee) : Int :=
  match employee with
  | none => 0
  | some emp =>
    if strTruthy emp.location then
      if lawyer.locations.any (fun loc => jsToLower loc == jsToLower emp.location)
      then 15 else 0
    else 0

/-- Employee-department fallback block: +10 when the lawyer covers the
employee profile department. -/
def empDepartmentScore (lawyer : Lawyer) (employee : Option Employee) : Int :=
  match employee with
  | none => 0
  | some emp =>
    if strTruthy emp.department then
      if lawyer.departments.any (fun dept => jsToLower dept == jsToLower emp.department)
      then 10 else 0
    else 0

/-- scoreLawyerMatch: the additive sum of the source blocks, in source
order. -/
def scoreLawyerMatch (now : Int) (lawyer : Lawyer) (extractedInfo : ExtractedInfo)
    (employee : Option Employee) : Int :=
  availabilityScore now lawyer
    + specialtyScore lawyer extractedInfo
    + locationScore lawyer extractedInfo
    + departmentScore lawyer extractedInfo
    + tagScore lawyer employee
    + empLocationScore lawyer employee
    + empDepartmentScore lawyer employee

/-- scoreLawyerMatch as the spec words the tag block (vip excluded from the
per-tag count); all other blocks are identical. -/
def scoreLawyerMatchSpec (now : Int) (lawyer : Lawyer) (extractedInfo : ExtractedInfo)
    (employee : Option Employee) : Int :=
  availabilityScore now lawyer
    + specialtyScore lawyer extractedInfo
    + locationScore lawyer extractedInfo
    + departmentScore lawyer extractedInfo
    + tagScoreSpec lawyer employee
    + empLocationScore lawyer employee
    + empDepartmentScore lawyer employee

/-- Result record of findBestLawyer. -/
structure LawyerMatch where
  lawyer : Lawyer
  score : Int
  reason : String
deriving DecidableEq, Repr

/-- Reason string construction of findBestLawyer, transcribed from the
source (note the source checks locations/departments/VIP tags here with
case-SENSITIVE `Array.includes`, unlike the scoring blocks). -/
def buildReason (now : Int) (best : Lawyer) (extractedInfo : ExtractedInfo)
    (employee : Option Employee) : String :=
  let reasons : List String := []
  let hasAvailability := hasUpcomingAvailability now best
  let availableSlots := getAvailableSlotCount now best
  let reasons :=
    if hasAvailability then
      reasons ++ ["available soon (" ++ toString availableSlots ++ " slots in next 7 days)"]
    else reasons
  let reasons :=
    match getField extractedInfo "requestType" with
    | some requestType =>
      if strTruthy requestType then
        let requestTypeLower := jsToLower requestType
        match best.specialties.find? (fun s =>
            jsIncludes (jsToLower s) requestTypeLower || jsIncludes requestTypeLower (jsToLower s)) with
        | some matchingSpecialty => reasons ++ ["specializes in " ++ matchingSpecialty]
        | none => reasons
      else reasons
    | none => reasons
  let reasons :=
    match getField extractedInfo "location" with
    | some location =>
      if strTruthy location && best.locations.contains location then
        reasons ++ ["handles " ++ location ++ " region"]
      else reasons
    | none => reasons
  let reasons :=
    match getField extractedInfo "department" with
    | some department =>
      if strTruthy department && best.departments.contains department then
        reasons ++ ["works with " ++ department ++ " department"]
      else reasons
    | none => reasons
  let reasons :=
    match employee with
    | some emp =>
      match emp.tags, best.tags with
      | some empTags, some lwTags =>
        if empTags.contains "VIP" && lwTags.contains "VIP" then
          reasons ++ ["handles VIP clients"]
        else reasons
      | _, _ => reasons
    | none => reasons
  if reasons.isEmpty then "best available match"
  else String.intercalate ", " reasons

/-- findBestLawyer.  The `prisma.lawyer.findMany` fetch is the `roster`
argument; the surrounding `try/catch` of the source converts any fetch
failure into `null`.  The stable descending sort plus `scored[0]` of the
source is embedded as a left fold keeping the first candidate of maximal
score. -/
def findBestLawyer (now : Int) (roster : Except Err (List Lawyer))
    (extractedInfo : ExtractedInfo) (employee : Option Employee) : Option LawyerMatch :=
  if !(infoHas extractedInfo "requestType") then none
  else
    match roster with
    | .error _ => none
    | .ok lawyers =>
      match lawyers with
      | [] => none
      | l0 :: rest =>
        let bestMatch := rest.foldl (fun acc l =>
            let s := scoreLawyerMatch now l extractedInfo employee
            if s > acc.2 then (l, s) else acc)
          (l0, scoreLawyerMatch now l0 extractedInfo employee)
        if bestMatch.2 < 20 then none
        else some ⟨bestMatch.1, bestMatch.2, buildReason now bestMatch.1 extractedInfo employee⟩

/-! ## Intent Classifier (src/server/src/aiAgent.ts, isDocumentQuestion) -/

/-- Message role. -/
inductive Role where
  | system
  | user
  | assistant
deriving DecidableEq, Repr

/-- Chat message. -/
structure Message where
  role : Role
  content : String
deriving DecidableEq, Repr

/-- Fixed greeting list of the fast path. -/
def greetings : List String :=
  ["hi", "hello", "hey", "greetings", "good morning", "good afternoon", "good evening"]

/-- Fixed question-pattern phrases of the fast path. -/
def questionPatterns : List String :=
  ["what is", "what are", "what\x27s", "explain", "tell me about", "how does", "how do",
   "what do i need to know", "what should i know", "wondering what", "want to know about",
   "define", "definition of", "can you explain",
   "regarding the", "about the", "regarding our", "about our"]

/-- Fixed policy/document terms of the fast path. -/
def policyTerms : List String :=
  ["policy", "policies", "procedure", "guideline", "compliance", "regulation", "requirement"]

/-- WH words of the word-boundary regex of the fast path. -/
def whWords : List String := ["what", "how", "why", "when", "where", "which", "who"]

/-- isDocumentQuestion.  The external completion call is the `llm` argument.
The source `catch` block reads `return hasKeyword;`, but no identifier named
`hasKeyword` is declared anywhere in the repository (the fast-path booleans
are named `hasQuestionPattern`, `hasPolicyTerm` and `hasQuestionWord`), so
evaluating the catch block raises `ReferenceError: hasKeyword is not
defined`; the embedding models that evaluation as the error below. -/
def isDocumentQuestion (llm : Except Err String) (messages : List Message) :
    Except Err Bool :=
  match messages.reverse.find? (fun m => m.role == Role.user) with
  | none => .ok false
  | some lastUserMessage =>
    let content := jsTrim (jsToLower lastUserMessage.content)
    if greetings.contains content || content.length < 5 then .ok false
    else
      let hasQuestionPattern := questionPatterns.any (fun pattern => jsIncludes content pattern)
      let hasPolicyTerm := policyTerms.any (fun term => jsIncludes content term)
      let hasQuestionWord := whWords.any (fun w => (wordsOf content).contains w)
      if hasQuestionPattern || (hasQuestionWord && hasPolicyTerm) then .ok true
      else
        match llm with
        | .ok response => .ok (jsToLower (jsTrim response) == "document")
        | .error _ => .error (Err.raw "ReferenceError: hasKeyword is not defined")

/-! ## Triage Orchestrator (src/server/src/aiAgent.ts, processConversation) -/

/-- One search result of the external document search
(`searchDocuments`). -/
structure SearchResult where
  documentTitle : String
  category : String
deriving DecidableEq, Repr

/-- Source entry of a document answer in the decision record. -/
structure DocSource where
  title : String
  category : String
deriving DecidableEq, Repr

/-- TriageState from src/server/src/types.ts, the decision record.
Fields the source leaves `undefined` are `none` here; `missingFields` and
`documentSources` default to the empty list. -/
structure TriageState where
  extractedInfo : ExtractedInfo
  assignedTo : Option String
  isComplete : Bool
  needsMoreInfo : Bool
  missingFields : List String
  matchReason : Option String
  matchScore : Option Int
  documentResponse : Option String
  documentSources : List DocSource
deriving DecidableEq, Repr

/-- External collaborators of one orchestrator run, snapshot semantics:
each is the value (or failure) the corresponding awaited call produces
during this run.  `classify` is the isDocumentQuestion result, `extractedRaw`
the extraction result (the source extraction catches its own failures and
returns an empty object, so it is total), `termTable` the per-category
synonym-table fetch, `lawyers` the roster fetch, `rules` the rule-store
fetch, `now` the clock reading used by the availability window. -/
structure Env where
  classify : Except Err Bool
  searchDocs : Except Err (List SearchResult)
  rag : Except Err String
  extractedRaw : ExtractedInfo
  termTable : String → Except Err (List LegalTerm)
  lawyers : Except Err (List Lawyer)
  rules : Except Err (List TriageRule)
  employee : Option Employee
  now : Int

/-- Employee auto-fill of processConversation: user-stated values win;
profile values fill only absent/empty fields. -/
def autofillFromEmployee (raw : ExtractedInfo) (employee : Option Employee) :
    ExtractedInfo :=
  match employee with
  | none => raw
  | some emp =>
    let r1 :=
      if !(infoHas raw "department") && strTruthy emp.department
      then setField raw "department" emp.department else raw
    if !(infoHas r1 "location") && strTruthy emp.location
    then setField r1 "location" emp.location else r1

/-- Static-rule fallback tail of processConversation (the code after the
dynamic-routing branch): match a rule, else compute missing fields. -/
def ruleFallback (env : Env) (extractedInfo : ExtractedInfo) : Except Err TriageState :=
  match env.rules with
  | .error e => .error e
  | .ok rules =>
    match findMatchingRule rules extractedInfo with
    | some matchingRule =>
      .ok { extractedInfo := extractedInfo
            assignedTo := some matchingRule.assignee
            isComplete := true
            needsMoreInfo := false
            missingFields := []
            matchReason := none
            matchScore := none
            documentResponse := none
            documentSources := [] }
    | none =>
      let missingFields := getMissingFields rules extractedInfo
      .ok { extractedInfo := extractedInfo
            assignedTo := none
            isComplete := false
            needsMoreInfo := decide (missingFields.length > 0)
            missingFields := missingFields
            matchReason := none
            matchScore := none
            documentResponse := none
            documentSources := [] }

/-- processConversation.  The body follows the source control flow; the
final `match` is the boundary `try/catch`, which logs the error under the
fixed label process_conversation and re-throws it unchanged. -/
def processConversation (env : Env) : Except Err TriageState :=
  let body : Except Err TriageState :=
    match env.classify with
    | .error e => .error e
    | .ok true =>
      match env.searchDocs with
      | .error e => .error e
      | .ok searchResults =>
        match env.rag with
        | .error e => .error e
        | .ok ragResponse =>
          .ok { extractedInfo :=
                  [("requestType", "Document Question"), ("isDocumentQuestion", "true")]
                assignedTo := none
                isComplete := true
                needsMoreInfo := false
                missingFields := []
                matchReason := none
                matchScore := none
                documentResponse := some ragResponse
                documentSources := searchResults.map (fun r => ⟨r.documentTitle, r.category⟩) }
    | .ok false =>
      let rawExtractedInfo := autofillFromEmployee env.extractedRaw env.employee
      let extractedInfo := fuzzyMatchExtractedInfo env.termTable rawExtractedInfo
      let bestLawyerMatch := findBestLawyer env.now env.lawyers extractedInfo env.employee
      match bestLawyerMatch with
      | some m =>
        if m.score ≥ 20 then
          .ok { extractedInfo := extractedInfo
                assignedTo := some m.lawyer.email
                isComplete := true
                needsMoreInfo := false
                missingFields := []
                matchReason := some m.reason
                matchScore := some m.score
                documentResponse := none
                documentSources := [] }
        else ruleFallback env extractedInfo
      | none => ruleFallback env extractedInfo
  match body with
  | .ok s => .ok s
  | .error e => .error e

/-! ## Spec-side definitions

The definitions in this section follow the WORDING OF THE SPEC, for the
refinement-style claims that compare the spec sentences with the code.
Each is clearly marked; everything above embeds the source. -/

/-- Spec wording of the missing-field companion contract: a rule is close
when it is missing at least one but not all of its condition fields. -/
def isCloseRule (info : ExtractedInfo) (rule : TriageRule) : Bool :=
  let fs := rule.conditions.map (fun c => c.field)
  let miss := fs.filter (fun f => !(infoHas info f))
  decide (miss.length > 0) && decide (miss.length < fs.length)

/-- Spec wording of getMissingFields: empty when a rule matches; else the
first of the deduplicated union of absent fields over all close rules; if
no rule is close, the first field referenced by any rule that is absent
from the info. -/
def getMissingFieldsSpec (rules : List TriageRule) (info : ExtractedInfo) : List String :=
  if (findMatchingRule rules info).isSome then []
  else
    let closeMissing := (rules.filter (fun r => isCloseRule info r)).flatMap
      (fun r => (r.conditions.map (fun c => c.field)).filter (fun f => !(infoHas info f)))
    if closeMissing.isEmpty then
      ((rules.flatMap (fun r => r.conditions.map (fun c => c.field))).filter
        (fun f => !(infoHas info f))).take 1
    else
      (dedupFO closeMissing).take 1

/-- Surplus of the source tag block over the spec tag block for an
employee whose lower-cased tag list is duplicate-free: the vip pair, when
present on both sides, is counted once more by the +10-per-common-tag
loop. -/
def vipExtra (lawyer : Lawyer) (employee : Option Employee) : Int :=
  match employee with
  | none => 0
  | some emp =>
    match emp.tags, lawyer.tags with
    | some empTags, some lwTags =>
      if (empTags.map jsToLower).contains "vip" && (lwTags.map jsToLower).contains "vip"
      then 10
      else 0
    | _, _ => 0

/-- Whether a field name carries the internal-metadata marker (the source
prefixes employee-derived metadata fields with an underscore:
_employeeId, _employeeName, _employeeRole). -/
def isMetaField (s : String) : Bool :=
  match s.data with
  | [] => false
  | c :: _ => c == '_'

/-- Remove the internal-metadata fields from an info record. -/
def stripMetadata (info : ExtractedInfo) : ExtractedInfo :=
  info.filter (fun kv => !(isMetaField kv.1))

/-- Number of decision outcomes that hold of a state, out of the three the
spec declares mutually exclusive: assignment (with isComplete),
document answer (with isComplete), missing fields (without isComplete). -/
def outcomeCount (s : TriageState) : Nat :=
  (if s.assignedTo.isSome && s.isComplete then 1 else 0)
  + (if s.documentResponse.isSome && s.isComplete then 1 else 0)
  + (if !s.missingFields.isEmpty && !s.isComplete then 1 else 0)

/-! ## Concrete fixtures used by counterexamples and witnesses -/

/-- An enabled rule with an empty conditions list. -/
def zeroCondRule : TriageRule :=
  ⟨"r1", "zero-conditions", [], "bob@example.com", 1, true⟩

/-- A rule whose sole condition references an internal-metadata field. -/
def metaCondRule : TriageRule :=
  ⟨"r2", "metadata", [⟨"_employeeId", CondOp.equals, "e1"⟩], "ann@example.com", 1, true⟩

/-- An info record carrying an internal-metadata field. -/
def infoWithMeta : ExtractedInfo := [("requestType", "NDA"), ("_employeeId", "e1")]

/-- A lawyer whose only routing signal is a vip tag. -/
def vipLawyer : Lawyer :=
  ⟨"l1", "vip@example.com", "Vera", [], [], [], some ["vip"], none⟩

/-- An employee carrying a vip tag and no other scoring signals. -/
def vipEmployee : Employee :=
  ⟨"e1", "emp@example.com", "Eva", "Eng", "", "", none, some ["vip"]⟩

/-- A lawyer sharing exactly one tag with dupTagEmployee; vip appears
nowhere. -/
def dupTagLawyer : Lawyer :=
  ⟨"l2", "sales@example.com", "Sal", [], [], [], some ["sales"], none⟩

/-- An employee whose tag list lower-cases to a duplicated entry. -/
def dupTagEmployee : Employee :=
  ⟨"e2", "emp2@example.com", "Dee", "Dup", "", "", none, some ["Sales", "sales"]⟩

/-- A conversation that is a service request (no fast-path match). -/
def ndaRequestMsgs : List Message := [⟨Role.user, "I need an NDA for a vendor"⟩]

/-- Run environment with no rules, no lawyers, empty extraction: a
non-document conversation that ends with nothing assigned and nothing to
ask. -/
def envNoRules : Env :=
  { classify := .ok false, searchDocs := .ok [], rag := .ok "", extractedRaw := [],
    termTable := fun _ => .ok [], lawyers := .ok [], rules := .ok [],
    employee := none, now := 0 }

/-- The state envNoRules produces: not complete, yet no missing fields. -/
def nothingToAskState : TriageState :=
  { extractedInfo := [], assignedTo := none, isComplete := false, needsMoreInfo := false,
    missingFields := [], matchReason := none, matchScore := none,
    documentResponse := none, documentSources := [] }

/-- Run environment whose rule-store fetch fails while the dynamic router
finds no candidate, so the rule-fallback stage raises. -/
def envRulesDown : Env :=
  { classify := .ok false, searchDocs := .ok [], rag := .ok "",
    extractedRaw := [("requestType", "NDA")],
    termTable := fun _ => .ok [], lawyers := .ok [], rules := .error (Err.raw "boom"),
    employee := none, now := 0 }

/-- Run environment taking the document path. -/
def envDocPath : Env :=
  { classify := .ok true, searchDocs := .ok [⟨"NDA Policy", "legal"⟩], rag := .ok "answer",
    extractedRaw := [], termTable := fun _ => .ok [], lawyers := .ok [], rules := .ok [],
    employee := none, now := 0 }

/-- The state envDocPath produces. -/
def docPathState : TriageState :=
  { extractedInfo := [("requestType", "Document Question"), ("isDocumentQuestion", "true")],
    assignedTo := none, isComplete := true, needsMoreInfo := false, missingFields := [],
    matchReason := none, matchScore := none, documentResponse := some "answer",
    documentSources := [⟨"NDA Policy", "legal"⟩] }

/-! ## Helper lemmas -/

/-- Splitting the common-tag count at the vip tag. -/
theorem filter_contains_length_split (lts ets : List String) :
    (ets.filter (fun t => lts.contains t)).length
      = (ets.filter (fun t => lts.contains t && t ≠ "vip")).length
        + (if lts.contains "vip" then ets.count "vip" else 0) := by
  induction ets with
  | nil => simp
  | cons t ets ih =>
    by_cases ht : t = "vip"
    · subst ht
      by_cases hA : "vip" ∈ lts <;>
        · simp [List.filter_cons, List.count_cons, hA] at ih ⊢
          omega
    · by_cases hA : t ∈ lts <;>
        · simp [List.filter_cons, List.count_cons, hA, ht] at ih ⊢
          omega

/-- dedupFO.go leaves a duplicate-free list untouched when nothing was
seen yet. -/
theorem dedupFO_go_eq_self (l : List String) :
    ∀ seen, l.Nodup → (∀ x ∈ l, x ∉ seen) → dedupFO.go l seen = l := by
  induction l with
  | nil => intro seen _ _; rfl
  | cons x xs ih =>
    intro seen hnd hdis
    have hx : x ∉ seen := hdis x (List.mem_cons_self _ _)
    have hxc : seen.contains x = false := by simpa using hx
    have hdis2 : ∀ y ∈ xs, y ∉ x :: seen := by
      intro y hy hmem
      rcases List.mem_cons.mp hmem with rfl | hmem2
      · exact (List.nodup_cons.mp hnd).1 hy
      · exact hdis y (List.mem_cons_of_mem _ hy) hmem2
    simp only [dedupFO.go, hxc, Bool.false_eq_true, if_false]
    rw [ih (x :: seen) (List.nodup_cons.mp hnd).2 hdis2]

/-- dedupFO is the identity on duplicate-free lists. -/
theorem dedupFO_eq_self_of_nodup (l : List String) (h : l.Nodup) : dedupFO l = l := by
  unfold dedupFO
  exact dedupFO_go_eq_self l [] h (fun x _ => List.not_mem_nil x)

/-- The source tag block equals the spec tag block plus the vip surplus,
for an employee whose lower-cased tag list is duplicate-free. -/
theorem tagScore_split (lawyer : Lawyer) (employee : Option Employee)
    (hnd : ∀ emp empTags, employee = some emp → emp.tags = some empTags →
      (empTags.map jsToLower).Nodup) :
    tagScore lawyer employee = tagScoreSpec lawyer employee + vipExtra lawyer employee := by
  rcases employee with _ | emp
  · simp [tagScore, tagScoreSpec, vipExtra]
  · rcases he : emp.tags with _ | empTags
    · simp [tagScore, tagScoreSpec, vipExtra, he]
    · rcases hl : lawyer.tags with _ | lwTags
      · simp [tagScore, tagScoreSpec, vipExtra, he, hl]
      · have hnodup : (empTags.map jsToLower).Nodup := hnd emp empTags rfl he
        have hded : dedupFO (empTags.map jsToLower) = empTags.map jsToLower :=
          dedupFO_eq_self_of_nodup _ hnodup
        have key := filter_contains_length_split (lwTags.map jsToLower) (empTags.map jsToLower)
        simp only [tagScore, tagScoreSpec, vipExtra, he, hl, hded]
        by_cases hv : "vip" ∈ lwTags.map jsToLower <;>
          by_cases hev : "vip" ∈ empTags.map jsToLower
        · have hcount : (empTags.map jsToLower).count "vip" = 1 :=
            List.count_eq_one_of_mem hnodup hev
          simp [hv, hev, hcount] at key ⊢
          omega
        · have hcount : (empTags.map jsToLower).count "vip" = 0 :=
            List.count_eq_zero.mpr hev
          simp [hv, hev, hcount] at key ⊢
          omega
        · simp [hv, hev] at key ⊢
          omega
        · simp [hv, hev] at key ⊢
          omega

/-! ## Claims -/

/-- C3 (code_bug): on a conversation the fast-path heuristic does not match,
a failure of the external classification call does NOT fall back to the
fast-path boolean: the catch block of isDocumentQuestion reads the
undeclared identifier hasKeyword, so the classifier raises a
ReferenceError to its caller instead of returning a boolean. -/
theorem c3_classifier_throws_on_fallback_failure :
    isDocumentQuestion (.error (Err.raw "ECONNREFUSED")) ndaRequestMsgs
      = .error (Err.raw "ReferenceError: hasKeyword is not defined") := rfl

/-- C4 (counterexample): findMatchingRule returns a rule with zero
conditions — an enabled rule with an empty conditions list matches the
empty info. -/
theorem c4_zero_condition_rule_returned :
    findMatchingRule [zeroCondRule] ([] : ExtractedInfo) = some zeroCondRule ∧
    zeroCondRule.conditions = [] ∧ zeroCondRule.enabled = true :=
  ⟨rfl, rfl, rfl⟩

/-- C4 (amended): an enabled rule with an empty conditions list matches
every info (the conditions are AND-combined with Array.every, which is
vacuously true on an empty list), so findMatchingRule returns such a rule
whenever it is first in the list. -/
theorem c4_zero_condition_rule_matches_all (info : ExtractedInfo) (rule : TriageRule)
    (rest : List TriageRule) (hE : rule.enabled = true) (hC : rule.conditions = []) :
    findMatchingRule (rule :: rest) info = some rule := by
  have h1 : evaluateRule rule info = true := by
    unfold evaluateRule
    rw [hE, hC]
    rfl
  unfold findMatchingRule
  simp [List.find?, h1]

/-- Witness for c4_zero_condition_rule_matches_all at a concrete rule. -/
theorem c4_zero_condition_rule_matches_all_witness :
    findMatchingRule [zeroCondRule] ([] : ExtractedInfo) = some zeroCondRule :=
  c4_zero_condition_rule_matches_all [] zeroCondRule [] rfl rfl

/-- C5 (counterexample): for an employee and lawyer sharing exactly the
tag vip and no other signal, the source scores 40 = −10 (availability)
+ 40 (vip) + 10 (vip counted again by the common-tag loop), while the
spec formula (vip excluded from the per-tag count) gives 30 — the shared
vip pair contributes 50, not 40.  A second instance shows the loop also
deviates from the spec SET intersection on duplicated employee tags:
tags lower-casing to [sales, sales] against a lawyer tagged [sales] earn
+20 in the source against the +10 of the set formula, vip nowhere. -/
theorem c5_vip_pair_scores_fifty :
    scoreLawyerMatch 0 vipLawyer [] (some vipEmployee) = 40 ∧
    scoreLawyerMatchSpec 0 vipLawyer [] (some vipEmployee) = 30 ∧
    scoreLawyerMatch 0 vipLawyer [] (some vipEmployee)
      ≠ scoreLawyerMatchSpec 0 vipLawyer [] (some vipEmployee) ∧
    scoreLawyerMatch 0 dupTagLawyer [] (some dupTagEmployee) = 10 ∧
    scoreLawyerMatchSpec 0 dupTagLawyer [] (some dupTagEmployee) = 0 :=
  ⟨rfl, rfl, by decide, rfl, rfl⟩

/-- C5 (amended): the Specialist Scorer adds +40 for the vip pair and then
+10 for EVERY employee-tag occurrence whose lower-cased form appears among
the specialist tags — the vip pair is NOT excluded and duplicate employee
tags count per occurrence.  For an employee whose lower-cased tag list is
duplicate-free, the source score equals the spec set-intersection formula
plus exactly 10 whenever the vip pair is present: a shared vip tag
contributes 50 in total, not 40. -/
theorem c5_vip_tag_counted_twice (now : Int) (lawyer : Lawyer) (info : ExtractedInfo)
    (employee : Option Employee)
    (hnd : ∀ emp empTags, employee = some emp → emp.tags = some empTags →
      (empTags.map jsToLower).Nodup) :
    scoreLawyerMatch now lawyer info employee
      = scoreLawyerMatchSpec now lawyer info employee + vipExtra lawyer employee := by
  unfold scoreLawyerMatch scoreLawyerMatchSpec
  have h := tagScore_split lawyer employee hnd
  omega

/-- Witness for c5_vip_tag_counted_twice at the vip pair: 40 = 30 + 10. -/
theorem c5_vip_tag_counted_twice_witness :
    scoreLawyerMatch 0 vipLawyer [] (some vipEmployee)
      = scoreLawyerMatchSpec 0 vipLawyer [] (some vipEmployee)
        + vipExtra vipLawyer (some vipEmployee) :=
  c5_vip_tag_counted_twice 0 vipLawyer [] (some vipEmployee)
    (by
      intro emp empTags he ht
      injection he with h1
      subst h1
      have ht2 : some ["vip"] = some empTags := ht
      injection ht2 with h2
      subst h2
      decide)

/-- C9 (counterexample): a rule whose condition references the internal
metadata field _employeeId is evaluated against that field — removing the
metadata field changes the rule-match result. -/
theorem c9_rule_matcher_compares_metadata :
    findMatchingRule [metaCondRule] infoWithMeta = some metaCondRule ∧
    findMatchingRule [metaCondRule] (stripMetadata infoWithMeta) = none :=
  ⟨rfl, rfl⟩

/-- Looking up a non-metadata field is unaffected by stripping the
metadata fields. -/
theorem getField_stripMetadata (info : ExtractedInfo) (f : String)
    (hf : isMetaField f = false) :
    getField (stripMetadata info) f = getField info f := by
  induction info with
  | nil => rfl
  | cons kv info ih =>
    unfold stripMetadata getField at ih ⊢
    cases hk : isMetaField kv.1 with
    | true =>
      have hne : (kv.1 == f) = false := by
        cases hq : kv.1 == f
        · rfl
        · have hkf : kv.1 = f := by simpa using hq
          rw [hkf, hf] at hk
          exact Bool.noConfusion hk
      simp only [List.filter_cons, hk, Bool.not_true, Bool.false_eq_true, if_false,
        List.find?_cons, hne]
      exact ih
    | false =>
      simp only [List.filter_cons, hk, Bool.not_false, if_true, List.find?_cons]
      cases hq : kv.1 == f
      · simpa [hq] using ih
      · simp [hq]

/-- Stripping metadata does not change the evaluation of a condition on a
non-metadata field. -/
theorem evaluateCondition_strip (c : TriageCondition) (info : ExtractedInfo)
    (hc : isMetaField c.field = false) :
    evaluateCondition c (stripMetadata info) = evaluateCondition c info := by
  unfold evaluateCondition
  rw [getField_stripMetadata info c.field hc]

/-- Pointwise-equal predicates give equal List.all results. -/
theorem all_congr_mem {α : Type} (l : List α) (f g : α → Bool)
    (h : ∀ a ∈ l, f a = g a) : l.all f = l.all g := by
  induction l with
  | nil => rfl
  | cons a l ih =>
    simp only [List.all_cons, h a (by simp)]
    rw [ih (fun b hb => h b (by simp [hb]))]

/-- Stripping metadata does not change rule evaluation when no condition
references a metadata field. -/
theorem evaluateRule_strip (r : TriageRule) (info : ExtractedInfo)
    (hr : ∀ c ∈ r.conditions, isMetaField c.field = false) :
    evaluateRule r (stripMetadata info) = evaluateRule r info := by
  unfold evaluateRule
  rw [all_congr_mem r.conditions _ _ (fun c hc => evaluateCondition_strip c info (hr c hc))]

/-- Stripping metadata does not change the matched rule when no rule
references a metadata field. -/
theorem findMatchingRule_strip (rules : List TriageRule) (info : ExtractedInfo)
    (h : ∀ r ∈ rules, ∀ c ∈ r.conditions, isMetaField c.field = false) :
    findMatchingRule rules (stripMetadata info) = findMatchingRule rules info := by
  induction rules with
  | nil => rfl
  | cons r rules ih =>
    unfold findMatchingRule at ih ⊢
    have hr := evaluateRule_strip r info (h r (by simp))
    cases hv : evaluateRule r info <;>
      simp [List.find?_cons, hr, hv, ih (fun x hx => h x (by simp [hx]))]

/-- Stripping metadata does not change any specialist score: the scorer
reads only the requestType, location and department fields. -/
theorem scoreLawyerMatch_strip (now : Int) (lawyer : Lawyer) (employee : Option Employee)
    (info : ExtractedInfo) :
    scoreLawyerMatch now lawyer (stripMetadata info) employee
      = scoreLawyerMatch now lawyer info employee := by
  unfold scoreLawyerMatch specialtyScore locationScore departmentScore
  rw [getField_stripMetadata info "requestType" (by decide),
    getField_stripMetadata info "location" (by decide),
    getField_stripMetadata info "department" (by decide)]

/-- C9 (amended): specialist scores never depend on the internal-metadata
fields (the scorer reads only requestType, location and department), and
the rule-match result does not depend on them PROVIDED no rule condition
references a metadata-prefixed field name; a rule that does reference one
compares it (metadata fields are marked by an underscore naming convention
only, not by type). -/
theorem c9_metadata_influence (now : Int) (lawyer : Lawyer) (employee : Option Employee)
    (info : ExtractedInfo) (rules : List TriageRule) :
    (scoreLawyerMatch now lawyer (stripMetadata info) employee
      = scoreLawyerMatch now lawyer info employee)
    ∧ ((∀ r ∈ rules, ∀ c ∈ r.conditions, isMetaField c.field = false) →
        findMatchingRule rules (stripMetadata info) = findMatchingRule rules info) :=
  ⟨scoreLawyerMatch_strip now lawyer employee info,
   fun h => findMatchingRule_strip rules info h⟩

/-- Witness for c9_metadata_influence at concrete inputs. -/
theorem c9_metadata_influence_witness :
    (scoreLawyerMatch 0 vipLawyer (stripMetadata infoWithMeta) (some vipEmployee)
      = scoreLawyerMatch 0 vipLawyer infoWithMeta (some vipEmployee))
    ∧ findMatchingRule [zeroCondRule] (stripMetadata infoWithMeta)
        = findMatchingRule [zeroCondRule] infoWithMeta :=
  ⟨(c9_metadata_influence 0 vipLawyer (some vipEmployee) infoWithMeta [zeroCondRule]).1,
   (c9_metadata_influence 0 vipLawyer (some vipEmployee) infoWithMeta [zeroCondRule]).2
     (by intro r hr c hc; simp [zeroCondRule] at hr; subst hr; simp at hc)⟩

/-- The running best of the selection fold stays below a bound when the
start and every candidate score below it. -/
theorem foldl_best_below (now : Int) (info : ExtractedInfo) (employee : Option Employee)
    (bound : Int) (rest : List Lawyer) :
    ∀ acc : Lawyer × Int, acc.2 < bound →
      (∀ l ∈ rest, scoreLawyerMatch now l info employee < bound) →
      (rest.foldl (fun acc l =>
          let s := scoreLawyerMatch now l info employee
          if s > acc.2 then (l, s) else acc) acc).2 < bound := by
  induction rest with
  | nil =>
    intro acc hacc _
    simpa using hacc
  | cons l rest ih =>
    intro acc hacc hall
    simp only [List.foldl_cons]
    refine ih _ ?_ (fun x hx => hall x (List.mem_cons_of_mem _ hx))
    by_cases hs : scoreLawyerMatch now l info employee > acc.2
    · simp only [hs, if_pos]
      exact hall l (List.mem_cons_self _ _)
    · simp only [hs, if_neg]
      exact hacc

/-- C6 (confirmed): findBestLawyer returns a candidate only when
requestType is truthy in the input and the winning score is at least 20;
with no requestType, or with every candidate scoring below 20, it returns
none so the caller falls back to the Rule Matcher. -/
theorem c6_selection_gate (now : Int) (roster : Except Err (List Lawyer))
    (info : ExtractedInfo) (employee : Option Employee) :
    (∀ m, findBestLawyer now roster info employee = some m →
      infoHas info "requestType" = true ∧ m.score ≥ 20)
    ∧ (infoHas info "requestType" = false →
        findBestLawyer now roster info employee = none)
    ∧ (∀ lawyers, roster = .ok lawyers →
        (∀ l ∈ lawyers, scoreLawyerMatch now l info employee < 20) →
        findBestLawyer now roster info employee = none) := by
  refine ⟨?_, ?_, ?_⟩
  · intro m hm
    unfold findBestLawyer at hm
    cases hq : infoHas info "requestType" with
    | false => rw [hq] at hm; exact Option.noConfusion hm
    | true =>
      refine ⟨rfl, ?_⟩
      rw [hq] at hm
      simp only [Bool.not_true, Bool.false_eq_true, if_false] at hm
      cases roster with
      | error e => exact Option.noConfusion hm
      | ok lawyers =>
        cases lawyers with
        | nil => exact Option.noConfusion hm
        | cons l0 rest =>
          simp only [] at hm
          split at hm
          · exact Option.noConfusion hm
          · rename_i hge
            cases hm
            dsimp only
            omega
  · intro hq
    unfold findBestLawyer
    rw [hq]
    rfl
  · intro lawyers hro hall
    subst hro
    unfold findBestLawyer
    cases hq : infoHas info "requestType" with
    | false => rfl
    | true =>
      simp only [Bool.not_true, Bool.false_eq_true, if_false]
      cases lawyers with
      | nil => rfl
      | cons l0 rest =>
        have hb := foldl_best_below now info employee 20 rest
          (l0, scoreLawyerMatch now l0 info employee)
          (hall l0 (List.mem_cons_self _ _))
          (fun x hx => hall x (List.mem_cons_of_mem _ hx))
        simp only [hb, if_pos]

/-- Witness for c6_selection_gate: with no requestType the router returns
none. -/
theorem c6_selection_gate_witness :
    findBestLawyer 0 (Except.ok []) ([] : ExtractedInfo) none = none :=
  (c6_selection_gate 0 (Except.ok []) [] none).2.1 (by decide)

/-- A roster-fetch failure makes findBestLawyer return none. -/
theorem findBestLawyer_error (now : Int) (e : Err) (info : ExtractedInfo)
    (employee : Option Employee) :
    findBestLawyer now (.error e) info employee = none := by
  unfold findBestLawyer
  split
  · rfl
  · rfl

/-- An empty roster makes findBestLawyer return none. -/
theorem findBestLawyer_nil (now : Int) (info : ExtractedInfo)
    (employee : Option Employee) :
    findBestLawyer now (.ok []) info employee = none := by
  unfold findBestLawyer
  split
  · rfl
  · rfl

/-- ruleFallback reads only the rule store of the environment. -/
theorem ruleFallback_congr (env₁ env₂ : Env) (h : env₁.rules = env₂.rules)
    (info : ExtractedInfo) : ruleFallback env₁ info = ruleFallback env₂ info := by
  unfold ruleFallback
  rw [h]

/-- C10 (confirmed): findBestLawyer never raises — a roster-fetch failure is
converted into none by its catch block — and the orchestrator run with a
failing roster fetch is identical to the run with an empty roster: it
silently proceeds to the rule fallback or missing-fields outcome. -/
theorem c10_router_never_throws (e : Err) (now : Int) (info : ExtractedInfo)
    (employee : Option Employee) (env : Env) :
    findBestLawyer now (.error e) info employee = none ∧
    processConversation { env with lawyers := .error e }
      = processConversation { env with lawyers := .ok [] } := by
  refine ⟨findBestLawyer_error now e info employee, ?_⟩
  obtain ⟨cl, sd, rg, raw, tt, lw, ru, emp, nw⟩ := env
  unfold processConversation
  cases cl with
  | error e1 => rfl
  | ok b =>
    cases b with
    | true => rfl
    | false =>
      simp only [findBestLawyer_error, findBestLawyer_nil]
      have h := ruleFallback_congr
        { classify := Except.ok false, searchDocs := sd, rag := rg, extractedRaw := raw,
          termTable := tt, lawyers := Except.error e, rules := ru, employee := emp, now := nw }
        { classify := Except.ok false, searchDocs := sd, rag := rg, extractedRaw := raw,
          termTable := tt, lawyers := Except.ok [], rules := ru, employee := emp, now := nw }
        rfl (fuzzyMatchExtractedInfo tt (autofillFromEmployee raw emp))
      rw [h]

/-- Filtering commutes with first-occurrence deduplication. -/
theorem dedupFO_go_filter (p : String → Bool) (l : List String) :
    ∀ seen, (dedupFO.go l seen).filter p = dedupFO.go (l.filter p) (seen.filter p) := by
  induction l with
  | nil => intro seen; rfl
  | cons x xs ih =>
    intro seen
    by_cases hx : x ∈ seen
    · cases hpx : p x
      · simp [dedupFO.go, List.filter_cons, hx, hpx, ih seen]
      · have hcf : x ∈ seen.filter p := List.mem_filter.mpr ⟨hx, hpx⟩
        simp [dedupFO.go, List.filter_cons, hx, hpx, hcf, ih seen]
    · cases hpx : p x
      · have hfx : (x :: seen).filter p = seen.filter p := by simp [List.filter_cons, hpx]
        simp [dedupFO.go, List.filter_cons, hx, hpx, ih (x :: seen), hfx]
      · have hcf : x ∉ seen.filter p := fun hmem => hx (List.mem_filter.mp hmem).1
        have hfx : (x :: seen).filter p = x :: seen.filter p := by simp [List.filter_cons, hpx]
        simp [dedupFO.go, List.filter_cons, hx, hpx, hcf, ih (x :: seen), hfx]

/-- Filtering commutes with dedupFO. -/
theorem dedupFO_filter (p : String → Bool) (l : List String) :
    (dedupFO l).filter p = dedupFO (l.filter p) := by
  unfold dedupFO
  exact dedupFO_go_filter p l []

/-- Deduplication preserves the first element. -/
theorem dedupFO_take_one (l : List String) : (dedupFO l).take 1 = l.take 1 := by
  cases l with
  | nil => rfl
  | cons x xs => rfl

/-- dedupFO is empty only on the empty list. -/
theorem dedupFO_eq_nil_iff (l : List String) : dedupFO l = [] ↔ l = [] := by
  cases l with
  | nil => simp [dedupFO, dedupFO.go]
  | cons x xs => simp [dedupFO, dedupFO.go]

/-- The fold of getMissingFields, with its step condition spelled through
isCloseRule (the two step functions are definitionally equal). -/
theorem missing_step_eq (info : ExtractedInfo) :
    (fun (acc : List String) (rule : TriageRule) =>
      let ruleFields := rule.conditions.map (fun c => c.field)
      let missingForRule := ruleFields.filter (fun f => !(infoHas info f))
      if missingForRule.length > 0 && missingForRule.length < ruleFields.length
      then acc ++ missingForRule
      else acc)
    = (fun (acc : List String) (rule : TriageRule) =>
      if isCloseRule info rule
      then acc ++ ((rule.conditions.map (fun c => c.field)).filter (fun f => !(infoHas info f)))
      else acc) := rfl

/-- The fold of getMissingFields accumulates exactly the concatenation of
the absent fields over the close rules. -/
theorem missing_foldl_eq (info : ExtractedInfo) (rules : List TriageRule) :
    ∀ acc : List String,
      rules.foldl (fun (acc : List String) (rule : TriageRule) =>
        if isCloseRule info rule
        then acc ++ ((rule.conditions.map (fun c => c.field)).filter (fun f => !(infoHas info f)))
        else acc) acc
      = acc ++ (rules.filter (fun r => isCloseRule info r)).flatMap
          (fun r => (r.conditions.map (fun c => c.field)).filter (fun f => !(infoHas info f))) := by
  induction rules with
  | nil => intro acc; simp
  | cons r rules ih =>
    intro acc
    cases hc : isCloseRule info r <;>
      simp [List.foldl_cons, List.filter_cons, hc, ih, List.append_assoc]

/-- C7 (confirmed): getMissingFields implements the spec policy — empty when
a rule matches; otherwise the first of the deduplicated union of absent
condition fields over the close rules (missing some but not all fields);
when no rule is close, the first field referenced by any rule that is
absent from the info. -/
theorem c7_missing_fields_policy (rules : List TriageRule) (info : ExtractedInfo) :
    getMissingFields rules info = getMissingFieldsSpec rules info := by
  unfold getMissingFields getMissingFieldsSpec
  cases h : findMatchingRule rules info with
  | some r => simp [h]
  | none =>
    simp only [h, Option.isSome_none, Bool.false_eq_true, if_false]
    rw [missing_step_eq info, missing_foldl_eq info rules []]
    simp only [List.nil_append]
    by_cases hM : (rules.filter (fun r => isCloseRule info r)).flatMap
        (fun r => (r.conditions.map (fun c => c.field)).filter (fun f => !(infoHas info f))) = []
    · rw [hM]
      simp only [List.length_nil, List.isEmpty_nil, if_pos, if_true]
      unfold getRequiredFields
      rw [dedupFO_filter, dedupFO_take_one]
    · have h1 : ¬((rules.filter (fun r => isCloseRule info r)).flatMap
          (fun r => (r.conditions.map (fun c => c.field)).filter (fun f => !(infoHas info f)))).length = 0 := by
        intro hlen
        exact hM (List.eq_nil_of_length_eq_zero hlen)
      have h2 : ((rules.filter (fun r => isCloseRule info r)).flatMap
          (fun r => (r.conditions.map (fun c => c.field)).filter (fun f => !(infoHas info f)))).isEmpty = false := by
        cases hl : (rules.filter (fun r => isCloseRule info r)).flatMap
            (fun r => (r.conditions.map (fun c => c.field)).filter (fun f => !(infoHas info f))) with
        | nil => exact absurd hl hM
        | cons a l => rfl
      rw [if_neg h1, h2]
      simp

/-- Shape of the synonym loop results: an early exact-synonym return
carries the current term with confidence 1; a completed loop returns the
running best unchanged or updated to the current term. -/
theorem synLoop_cases (ni tn : String) (syns : List String) :
    ∀ best : FuzzyMatchResult,
      synLoop ni tn syns best = Sum.inl ⟨tn, 1, some tn⟩
      ∨ ∃ b, synLoop ni tn syns best = Sum.inr b ∧
          (b = best ∨ b.normalizedValue = tn) := by
  induction syns with
  | nil => intro best; exact Or.inr ⟨best, rfl, Or.inl rfl⟩
  | cons syn rest ih =>
    intro best
    unfold synLoop
    by_cases hx : ni = jsToLower syn
    · rw [if_pos hx]
      exact Or.inl rfl
    · rw [if_neg hx]
      rcases ih (if calculateSimilarity ni (jsToLower syn) > best.confidence
          then ⟨tn, calculateSimilarity ni (jsToLower syn), some tn⟩ else best) with
        h | ⟨b, hb, hcase⟩
      · exact Or.inl h
      · refine Or.inr ⟨b, hb, ?_⟩
        rcases hcase with rfl | hnv
        · by_cases hgt : calculateSimilarity ni (jsToLower syn) > best.confidence
          · rw [if_pos hgt]
            exact Or.inr rfl
          · rw [if_neg hgt]
            exact Or.inl rfl
        · exact Or.inr hnv

/-- Shape of the term loop results: an early exact return carries some
table term with confidence 1; a completed loop returns the running best
unchanged or set to some table term. -/
theorem termLoop_cases (ni : String) (terms : List LegalTerm) :
    ∀ best : FuzzyMatchResult,
      (∃ t ∈ terms, termLoop ni terms best = Sum.inl ⟨t.term, 1, some t.term⟩)
      ∨ ∃ b, termLoop ni terms best = Sum.inr b ∧
          (b = best ∨ ∃ t ∈ terms, b.normalizedValue = t.term) := by
  induction terms with
  | nil => intro best; exact Or.inr ⟨best, rfl, Or.inl rfl⟩
  | cons t rest ih =>
    intro best
    unfold termLoop
    by_cases hx : ni = jsToLower t.term
    · rw [if_pos hx]
      exact Or.inl ⟨t, List.mem_cons_self _ _, rfl⟩
    · rw [if_neg hx]
      dsimp only
      have hb1 : (if calculateSimilarity ni (jsToLower t.term) > best.confidence
            then (⟨t.term, calculateSimilarity ni (jsToLower t.term), some t.term⟩ :
              FuzzyMatchResult) else best) = best
          ∨ (if calculateSimilarity ni (jsToLower t.term) > best.confidence
            then (⟨t.term, calculateSimilarity ni (jsToLower t.term), some t.term⟩ :
              FuzzyMatchResult) else best).normalizedValue = t.term := by
        by_cases hgt : calculateSimilarity ni (jsToLower t.term) > best.confidence
        · rw [if_pos hgt]
          exact Or.inr rfl
        · rw [if_neg hgt]
          exact Or.inl rfl
      rcases synLoop_cases ni t.term t.synonyms
          (if calculateSimilarity ni (jsToLower t.term) > best.confidence
            then ⟨t.term, calculateSimilarity ni (jsToLower t.term), some t.term⟩ else best) with
        hsyn | ⟨b2, hsyn, hcase⟩
      · rw [hsyn]
        exact Or.inl ⟨t, List.mem_cons_self _ _, rfl⟩
      · rw [hsyn]
        rcases ih b2 with ⟨t', ht', hrec⟩ | ⟨b3, hrec, hcase3⟩
        · exact Or.inl ⟨t', List.mem_cons_of_mem _ ht', hrec⟩
        · refine Or.inr ⟨b3, hrec, ?_⟩
          rcases hcase3 with rfl | ⟨t', ht', hnv⟩
          · rcases hcase with rfl | hnv2
            · rcases hb1 with hbb | hbn
              · exact Or.inl hbb
              · exact Or.inr ⟨t, List.mem_cons_self _ _, hbn⟩
            · exact Or.inr ⟨t, List.mem_cons_self _ _, hnv2⟩
          · exact Or.inr ⟨t', List.mem_cons_of_mem _ ht', hnv⟩

/-- C8 (confirmed): at the default 0.7 threshold, fuzzyMatch returns either
a canonical table term with confidence at least the threshold, or the raw
input unchanged with confidence 0; and when the term-table fetch fails it
returns the raw input with confidence 0 instead of raising. -/
theorem c8_normalizer_contract (tableResult : Except Err (List LegalTerm)) (input : String) :
    ((∃ terms t, tableResult = .ok terms ∧ t ∈ terms ∧
        (fuzzyMatch tableResult input (mkRat 7 10)).normalizedValue = t.term ∧
        (fuzzyMatch tableResult input (mkRat 7 10)).confidence ≥ mkRat 7 10)
      ∨ ((fuzzyMatch tableResult input (mkRat 7 10)).normalizedValue = input ∧
        (fuzzyMatch tableResult input (mkRat 7 10)).confidence = 0))
    ∧ (∀ e, fuzzyMatch (.error e) input (mkRat 7 10) = ⟨input, 0, none⟩) := by
  constructor
  · cases tableResult with
    | error e => exact Or.inr ⟨rfl, rfl⟩
    | ok terms =>
      unfold fuzzyMatch
      dsimp only
      rcases termLoop_cases (jsTrim (jsToLower input)) terms ⟨input, 0, none⟩ with
        ⟨t, ht, hloop⟩ | ⟨b, hloop, hcase⟩
      · rw [hloop]
        dsimp only
        refine Or.inl ⟨terms, t, rfl, ht, rfl, ?_⟩
        decide
      · rw [hloop]
        dsimp only
        by_cases hconf : b.confidence ≥ mkRat 7 10
        · rw [if_pos hconf]
          rcases hcase with rfl | ⟨t, ht, hnv⟩
          · have hlt : ¬((0 : ℚ) ≥ mkRat 7 10) := by decide
            exact absurd hconf hlt
          · exact Or.inl ⟨terms, t, rfl, ht, hnv, hconf⟩
        · rw [if_neg hconf]
          exact Or.inr ⟨rfl, rfl⟩
  · intro e
    rfl

/-- Shape of the rule-fallback tail: it raises exactly the rule-store
error, or returns an assignment state, or a needs-info state. -/
theorem ruleFallback_cases (env : Env) (I : ExtractedInfo) :
    (∃ e, ruleFallback env I = .error e ∧ env.rules = .error e)
    ∨ (∃ s, ruleFallback env I = .ok s ∧
        ((s.assignedTo.isSome = true ∧ s.isComplete = true ∧ s.missingFields = [] ∧
            s.documentResponse = none)
          ∨ (s.isComplete = false ∧ s.assignedTo = none ∧ s.documentResponse = none))) := by
  unfold ruleFallback
  cases hr : env.rules with
  | error e => exact Or.inl ⟨e, rfl, rfl⟩
  | ok rules =>
    dsimp only
    cases hm : findMatchingRule rules I with
    | some matchingRule =>
      exact Or.inr ⟨_, rfl, Or.inl ⟨rfl, rfl, rfl, rfl⟩⟩
    | none =>
      exact Or.inr ⟨_, rfl, Or.inr ⟨rfl, rfl, rfl⟩⟩

/-- Shape of a completed orchestrator run: it raises exactly one of the
stage errors unchanged, or returns a state of one of the three shapes —
assignment, document answer, or incomplete with no assignment. -/
theorem processConversation_cases (env : Env) :
    (∃ e, processConversation env = .error e ∧
      (env.classify = .error e ∨ env.searchDocs = .error e ∨ env.rag = .error e ∨
        env.rules = .error e))
    ∨ (∃ s, processConversation env = .ok s ∧
        ((s.assignedTo.isSome = true ∧ s.isComplete = true ∧ s.missingFields = [] ∧
            s.documentResponse = none)
          ∨ (s.documentResponse.isSome = true ∧ s.isComplete = true ∧ s.missingFields = [] ∧
            s.assignedTo = none)
          ∨ (s.isComplete = false ∧ s.assignedTo = none ∧ s.documentResponse = none))) := by
  obtain ⟨cl, sd, rg, raw, tt, lw, ru, emp, nw⟩ := env
  unfold processConversation
  cases cl with
  | error e => exact Or.inl ⟨e, rfl, Or.inl rfl⟩
  | ok b =>
    cases b with
    | true =>
      cases sd with
      | error e => exact Or.inl ⟨e, rfl, Or.inr (Or.inl rfl)⟩
      | ok searchResults =>
        cases rg with
        | error e => exact Or.inl ⟨e, rfl, Or.inr (Or.inr (Or.inl rfl))⟩
        | ok ragResponse =>
          exact Or.inr ⟨_, rfl, Or.inr (Or.inl ⟨rfl, rfl, rfl, rfl⟩)⟩
    | false =>
      dsimp only
      cases hb : findBestLawyer nw lw (fuzzyMatchExtractedInfo tt (autofillFromEmployee raw emp)) emp with
      | none =>
        dsimp only
        rcases ruleFallback_cases
            { classify := Except.ok false, searchDocs := sd, rag := rg, extractedRaw := raw,
              termTable := tt, lawyers := lw, rules := ru, employee := emp, now := nw }
            (fuzzyMatchExtractedInfo tt (autofillFromEmployee raw emp)) with
          ⟨e3, he3, hru⟩ | ⟨s3, hs3, hshape⟩
        · rw [he3]
          exact Or.inl ⟨e3, rfl, Or.inr (Or.inr (Or.inr hru))⟩
        · rw [hs3]
          rcases hshape with h1 | h2
          · exact Or.inr ⟨s3, rfl, Or.inl h1⟩
          · exact Or.inr ⟨s3, rfl, Or.inr (Or.inr h2)⟩
      | some m =>
        dsimp only
        by_cases hscore : m.score ≥ 20
        · rw [if_pos hscore]
          exact Or.inr ⟨_, rfl, Or.inl ⟨rfl, rfl, rfl, rfl⟩⟩
        · rw [if_neg hscore]
          rcases ruleFallback_cases
              { classify := Except.ok false, searchDocs := sd, rag := rg, extractedRaw := raw,
                termTable := tt, lawyers := lw, rules := ru, employee := emp, now := nw }
              (fuzzyMatchExtractedInfo tt (autofillFromEmployee raw emp)) with
            ⟨e3, he3, hru⟩ | ⟨s3, hs3, hshape⟩
          · rw [he3]
            exact Or.inl ⟨e3, rfl, Or.inr (Or.inr (Or.inr hru))⟩
          · rw [hs3]
            rcases hshape with h1 | h2
            · exact Or.inr ⟨s3, rfl, Or.inl h1⟩
            · exact Or.inr ⟨s3, rfl, Or.inr (Or.inr h2)⟩

/-- C1 (counterexample): a completed run can satisfy NONE of the three
outcomes: with no rules configured and no candidate, the orchestrator
returns a well-formed state with no assignment, no document answer, an
EMPTY missingFields list, and isComplete = false — so "exactly one of the
three outcomes" fails on produced decisions. -/
theorem c1_exactly_one_fails :
    processConversation envNoRules = .ok nothingToAskState ∧
    outcomeCount nothingToAskState = 0 ∧
    nothingToAskState.isComplete = false ∧
    nothingToAskState.missingFields = [] :=
  ⟨rfl, rfl, rfl, rfl⟩

/-- C1 (amended): every state a completed run returns satisfies AT MOST one
of the three outcomes, and isComplete is true exactly when an assignment or
a document answer is present; a fourth terminal shape exists — isComplete
false with missingFields empty (nothing left to ask). -/
theorem c1_decision_shape (env : Env) (s : TriageState)
    (h : processConversation env = .ok s) :
    outcomeCount s ≤ 1 ∧
    (s.isComplete = true ↔ (s.assignedTo.isSome = true ∨ s.documentResponse.isSome = true)) := by
  rcases processConversation_cases env with ⟨e, he, _⟩ | ⟨s', hs, hshape⟩
  · rw [h] at he
    exact Except.noConfusion he
  · rw [h] at hs
    injection hs with hss
    subst hss
    rcases hshape with ⟨h1, h2, h3, h4⟩ | ⟨h1, h2, h3, h4⟩ | ⟨h1, h2, h3⟩
    · constructor
      · unfold outcomeCount
        rw [h1, h2, h3, h4]
        simp
      · simp [h2, h1]
    · constructor
      · unfold outcomeCount
        rw [h1, h2, h3, h4]
        simp
      · simp [h2, h1]
    · constructor
      · unfold outcomeCount
        rw [h1, h2, h3]
        simp
        split <;> omega
      · simp [h1, h2, h3]

/-- Witness for c1_decision_shape at the document-path run. -/
theorem c1_decision_shape_witness :
    outcomeCount docPathState ≤ 1 ∧
    (docPathState.isComplete = true ↔
      (docPathState.assignedTo.isSome = true ∨ docPathState.documentResponse.isSome = true)) :=
  c1_decision_shape envDocPath docPathState rfl

/-- C2 (counterexample): when the rule-fallback stage raises (rule-store
fetch failure), the orchestrator re-throws the RAW error unchanged — the
thrown value is not a typed stage failure carrying a stage name. -/
theorem c2_no_stage_failure :
    processConversation envRulesDown = .error (Err.raw "boom") ∧
    ∀ stage msg, Err.raw "boom" ≠ Err.stageFailure stage msg :=
  ⟨rfl, fun _ _ h => Err.noConfusion h⟩

/-- C2 (amended): the orchestrator boundary catches a stage exception, logs
it under the fixed label process_conversation, and re-throws the ORIGINAL
error unchanged: every error a run raises is exactly one of the stage
errors of its environment; and a run never returns a partial state — every
returned state has one of the three complete shapes or the
nothing-left-to-ask shape. -/
theorem c2_error_propagates_unwrapped (env : Env) (e : Err)
    (h : processConversation env = .error e) :
    env.classify = .error e ∨ env.searchDocs = .error e ∨ env.rag = .error e ∨
      env.rules = .error e := by
  rcases processConversation_cases env with ⟨e', he, hsrc⟩ | ⟨s, hs, _⟩
  · rw [h] at he
    injection he with he2
    subst he2
    exact hsrc
  · rw [h] at hs
    exact Except.noConfusion hs

/-- Witness for c2_error_propagates_unwrapped at the failing-rule-store
run. -/
theorem c2_error_propagates_unwrapped_witness :
    envRulesDown.classify = .error (Err.raw "boom") ∨
    envRulesDown.searchDocs = .error (Err.raw "boom") ∨
    envRulesDown.rag = .error (Err.raw "boom") ∨
    envRulesDown.rules = .error (Err.raw "boom") :=
  c2_error_propagates_unwrapped envRulesDown (Err.raw "boom") rfl

end Triage
